import Mathlib

/-!
# Verification of the Emerson ingestion & consolidation pipeline

Shallow embedding of the ingestion core of the Emerson novel-writing tool:

* `src/lib/analysis.ts` — per-file classification (`classifyFile`), entity
  aggregation, structure guessing and the consolidation pass
  (`analyzeProject`);
* `src/lib/files.ts` — `countWords`;
* the ingestion view (`IngestionView`) — the per-file classification loop,
  the summary transition (`presentSummary`), the clarification dialogue
  (`handleAnswer`, `renderCurrentQuestion`) and the materializer
  (`buildProject`).

Modelling conventions:

* The model gateway (`generate`) and JSON.parse are the only effectful /
  fallible steps.  A gateway interaction is modelled by its outcome: the
  call threw, the returned content did not parse as JSON, or it parsed to
  a JSON value.  JSON values are modelled by the inductive `JVal`
  (JavaScript `undefined` is included as `JVal.undefined` so that absent
  object fields can be represented).
* JavaScript truthiness (`x || d`, `x ? a : b`) is modelled by `jsFalsy`;
  property access on `null`/`undefined`, which throws a TypeError, is
  modelled by `throwsOnAccess`.
* A thrown exception is modelled by `Except.error`; functions that cannot
  throw are total Lean functions.
* JavaScript `Map` (insertion-ordered, `set` on an existing key keeps its
  position) is modelled by an association list where updates rewrite in
  place and new keys are appended; `Array.prototype.sort` (stable since
  ES2019) is modelled by `List.insertionSort`, which is stable.
-/

namespace Emerson

/-! ## JSON / JavaScript value model -/

/-- A JavaScript value as produced by `JSON.parse`, extended with
`undefined` for `undefined` (the result of reading an absent object field).
Numbers are modelled as exact rationals. -/
inductive JVal where
  | undefined : JVal
  | null : JVal
  | bool : Bool → JVal
  | num : ℚ → JVal
  | str : String → JVal
  | arr : List JVal → JVal
  | obj : List (String × JVal) → JVal

/-- JavaScript falsiness: `undefined`, `null`, `false`, `0` and `""` are
falsy; every object and array is truthy.  (`NaN` cannot be produced by
`JSON.parse`.) -/
def jsFalsy : JVal → Bool
  | .undefined => true
  | .null => true
  | .bool b => !b
  | .num q => q = 0
  | .str s => s = ""
  | .arr _ => false
  | .obj _ => false

/-- The JavaScript `a || b` operator. -/
def jsOr (a b : JVal) : JVal := if jsFalsy a then b else a

/-- Property access `v.field` throws a TypeError exactly when `v` is
`null` or `undefined`. -/
def throwsOnAccess : JVal → Bool
  | .null => true
  | .undefined => true
  | _ => false

/-- Property access `v.k` for a value on which access does not throw:
a field of an object, `undefined` if the field is absent or the value is
a primitive or an array. -/
def getF (v : JVal) (k : String) : JVal :=
  match v with
  | .obj fields => (fields.lookup k).getD .undefined
  | _ => .undefined

/-! ## Dropped files and per-file classification (`classifyFile`,
`src/lib/analysis.ts` lines 93–151) -/

/-- `DroppedFile` (`src/lib/files.ts`): the fields produced by file
reading.  `lastModified` is carried as an opaque number. -/
structure DroppedFile where
  name : String
  path : String
  ftype : String
  size : Nat
  content : String
  lastModified : Nat
deriving DecidableEq

/-- The record returned by `classifyFile`.  The classification fields are
stored as JavaScript values (`JVal`): the source assigns the parsed JSON
fields after `||`-defaulting without further type checking, so e.g.
`classification` holds whatever truthy value the response carried.
The `DroppedFile` fields are spread in unchanged (`...file`). -/
structure ClassifiedFileJ where
  name : String
  path : String
  ftype : String
  size : Nat
  content : String
  lastModified : Nat
  classification : JVal
  confidence : JVal
  summary : JVal
  characters : JVal
  locations : JVal
  concepts : JVal
  chapterGuess : JVal
  isComplete : JVal

/-- Outcome of one gateway interaction for a classification call:
`generate` threw (network/auth error), or it returned content that —
after stripping Markdown code fences — fails `JSON.parse`, or content
that parses to the JSON value `v`. -/
inductive GwOutcome where
  | thrown : GwOutcome
  | unparseable : String → GwOutcome
  | parsed : JVal → GwOutcome

/-- The degraded record built in the `catch` branch of `classifyFile`
(`analysis.ts` lines 143–149): original file fields spread in,
`classification: 'unknown'`, `confidence: 0`, `summary: 'Failed to
analyze'`, empty entity lists; `chapterGuess` and `isComplete` are not
assigned, hence `undefined`. -/
def degradedRecord (f : DroppedFile) : ClassifiedFileJ :=
  { name := f.name
    path := f.path
    ftype := f.ftype
    size := f.size
    content := f.content
    lastModified := f.lastModified
    classification := .str "unknown"
    confidence := .num 0
    summary := .str "Failed to analyze"
    characters := .arr []
    locations := .arr []
    concepts := .arr []
    chapterGuess := .undefined
    isComplete := .undefined }

/-- The object literal built on a successful parse (`analysis.ts`
129–141): file fields spread in, `||` defaults on the response fields,
`chapterNumber` and `isComplete` copied as-is. -/
def parsedRecord (f : DroppedFile) (v : JVal) : ClassifiedFileJ :=
  { name := f.name
    path := f.path
    ftype := f.ftype
    size := f.size
    content := f.content
    lastModified := f.lastModified
    classification := jsOr (getF v "classification") (.str "unknown")
    confidence := jsOr (getF v "confidence") (.num (1/2))
    summary := jsOr (getF v "summary") (.str "Could not summarize")
    characters := jsOr (getF v "characters") (.arr [])
    locations := jsOr (getF v "locations") (.arr [])
    concepts := jsOr (getF v "concepts") (.arr [])
    chapterGuess := getF v "chapterNumber"
    isComplete := getF v "isComplete" }

/-- `classifyFile` (`analysis.ts` 93–151).  The `await generate(...)`
(lines 119–125) sits *outside* the `try` block, so a gateway throw
propagates to the caller (`Except.error`).  Inside the `try`:
`JSON.parse` failure is caught and degrades; on success the result
object is built with `||` defaults (lines 129–141) — note that when the
parsed value is `null`, the very first property access
`parsed.classification` throws a TypeError, which the same `catch`
turns into the degraded record. -/
def classifyFile (f : DroppedFile) (gw : GwOutcome) : Except Unit ClassifiedFileJ :=
  match gw with
  | .thrown => .error ()
  | .unparseable _ => .ok (degradedRecord f)
  | .parsed v =>
    if throwsOnAccess v then .ok (degradedRecord f)
    else .ok (parsedRecord f v)

/-- One iteration of the classification loop in `IngestionView`
(`classifyFiles`, lines 175–191): `classifyFile` is awaited inside a
`try`; if it throws, the `catch` (lines 181–190) pushes a degraded
record built from the same file with exactly the fields of
`degradedRecord`. -/
def classifyStep (f : DroppedFile) (gw : GwOutcome) : ClassifiedFileJ :=
  match classifyFile f gw with
  | .ok r => r
  | .error _ => degradedRecord f

/-! ## Typed pipeline layer

`analyzeProject` and everything downstream consume a `ClassifiedFile`
at its TypeScript-declared types (`analysis.ts` 20–31).  Fields not read
by the aggregation / dialogue / materialization code (`path`, `size`,
`confidence`, `lastModified`, …) are omitted here. -/

/-- `String.prototype.trim`, modeled character-wise (drop whitespace
from both ends).  The byte-position-based core `String.trim` does not
reduce in the kernel, so the embedding works on the character list. -/
def trimStr (s : String) : String :=
  ⟨((s.data.dropWhile Char.isWhitespace).reverse.dropWhile
      Char.isWhitespace).reverse⟩

/-- `countWords` (`src/lib/files.ts` 145–147):
`text.trim().split(/\s+/).filter(w => w.length > 0).length`.
Splitting at each whitespace character and then dropping empty chunks
counts exactly the maximal non-whitespace runs, as the regex split
followed by the same filter does. -/
def countWords (text : String) : Nat :=
  (((trimStr text).data.splitOnP Char.isWhitespace).filter
    (fun w => w.length > 0)).length

/-- `extractedEntities` of a `ClassifiedFile`. -/
structure ExtractedEntities where
  characters : List String
  locations : List String
  concepts : List String
deriving DecidableEq

/-- A classified file at its TypeScript types (`analysis.ts` 20–31). -/
structure ClassifiedFile where
  name : String
  content : String
  summary : String
  classification : String
  extractedEntities : ExtractedEntities
  chapterGuess : Option Nat
  isComplete : Option Bool
deriving DecidableEq

/-- An aggregated entity mention.  The source declares three shapes
(`CharacterMention`, `LocationMention`, `ConceptMention`,
`analysis.ts` 46–68); they share `name`, `mentions` and `appearsIn`,
which are the only fields the aggregation loops update.  The remaining
fields are constants fixed at creation (`aliases: []`, `role:
'unknown'` for characters, `type: 'other'` for concepts, `description`
absent for all three) and are carried here once for all three shapes. -/
structure EntityMention where
  name : String
  aliases : List String
  role : String
  description : Option String
  mentions : Nat
  appearsIn : List String
deriving DecidableEq

/-- One chapter bucket of the structure guess (`analysis.ts` 75–82). -/
structure ChapterGuess where
  number : Nat
  title : Option String
  files : List String
  wordCount : Nat
  status : String
  hasAlternateVersions : Bool
deriving DecidableEq

/-- One possible-duplicate group from the consolidation response. -/
structure Dup where
  items : List String
  reason : String
deriving DecidableEq

/-- A clarifying question (`analysis.ts` 84–90). -/
structure Question where
  id : String
  qtype : String
  question : String
  options : Option (List String)
deriving DecidableEq

/-- `StructureGuess` (`analysis.ts` 70–73). -/
structure StructureGuess where
  chapters : List ChapterGuess
  estimatedCompletion : Nat
deriving DecidableEq

/-- The aggregate analysis (`analysis.ts` 33–44), as returned by
`analyzeProject`. -/
structure IngestionAnalysis where
  genre : String
  totalWords : Nat
  files : List ClassifiedFile
  characters : List EntityMention
  locations : List EntityMention
  concepts : List EntityMention
  possibleDuplicates : List Dup
  structureGuess : StructureGuess
  questions : List Question
deriving DecidableEq

/-! ### JavaScript `Map` as an insertion-ordered association list -/

/-- `Map.set` on an existing key: rewrite the (first) binding in place,
keeping its position.  Keys produced by the pipeline are unique, so the
first binding is the only one. -/
def jsMapUpdate [BEq κ] : List (κ × α) → κ → (α → α) → List (κ × α)
  | [], _, _ => []
  | (k', v) :: rest, k, f =>
    if k' == k then (k', f v) :: rest else (k', v) :: jsMapUpdate rest k f

/-! ### Entity aggregation (`analyzeProject`, `analysis.ts` 163–221) -/

/-- The aggregation identity key: `entity.toLowerCase().trim()`,
modeled character-wise (`Char.toLower` on each character, then
`trimStr`); the core `String.toLower` does not reduce in the
kernel. -/
def normKey (s : String) : String := trimStr ⟨s.data.map Char.toLower⟩

/-- One aggregation step for one occurrence `(fileName, entityName)`,
mirroring the loop body at `analysis.ts` 168–185 (and its verbatim
copies for locations and concepts): an existing key gets `mentions++`
and `appearsIn.push(file.name)` guarded by `includes`; a new key is
inserted with the original casing as display name, `mentions = 1` and
`appearsIn = [file.name]`. -/
def entStep (m : List (String × EntityMention)) (o : String × String) :
    List (String × EntityMention) :=
  match m.lookup (normKey o.2) with
  | some _ =>
    jsMapUpdate m (normKey o.2) (fun e =>
      { e with
        mentions := e.mentions + 1
        appearsIn :=
          if e.appearsIn.contains o.1 then e.appearsIn
          else e.appearsIn ++ [o.1] })
  | none =>
    m ++ [(normKey o.2,
      { name := o.2
        aliases := []
        role := "unknown"
        description := none
        mentions := 1
        appearsIn := [o.1] })]

/-- Aggregate a flat list of `(fileName, entityName)` occurrences. -/
def aggEntities (occs : List (String × String)) : List (String × EntityMention) :=
  occs.foldl entStep []

/-- The `(file.name, entity)` occurrences of one entity class, in the
order the nested loops of `analyzeProject` visit them. -/
def charOccs (files : List ClassifiedFile) : List (String × String) :=
  files.flatMap (fun f => f.extractedEntities.characters.map (fun c => (f.name, c)))

/-- Location occurrences, as `charOccs`. -/
def locOccs (files : List ClassifiedFile) : List (String × String) :=
  files.flatMap (fun f => f.extractedEntities.locations.map (fun c => (f.name, c)))

/-- Concept occurrences, as `charOccs`. -/
def conceptOccs (files : List ClassifiedFile) : List (String × String) :=
  files.flatMap (fun f => f.extractedEntities.concepts.map (fun c => (f.name, c)))

/-- The `characterMap` of `analyzeProject` after the aggregation loop. -/
def characterMap (files : List ClassifiedFile) : List (String × EntityMention) :=
  aggEntities (charOccs files)

/-- The `locationMap` of `analyzeProject` after the aggregation loop. -/
def locationMap (files : List ClassifiedFile) : List (String × EntityMention) :=
  aggEntities (locOccs files)

/-- The `conceptMap` of `analyzeProject` after the aggregation loop. -/
def conceptMap (files : List ClassifiedFile) : List (String × EntityMention) :=
  aggEntities (conceptOccs files)

/-! ### Sorting (`analysis.ts` 223–226 and 252)

`Array.prototype.sort` is stable; `.sort((a, b) => b.mentions -
a.mentions)` sorts descending by `mentions`, ties keeping their
insertion (first-seen) order.  `List.insertionSort` is a stable sort,
proved so for this comparator in `filter_sortByMentionsDesc` below. -/

/-- The comparator `(a, b) => b.mentions - a.mentions`: `a` may precede
`b` iff `b.mentions ≤ a.mentions`. -/
def mentionsGE (a b : EntityMention) : Prop := b.mentions ≤ a.mentions

instance : DecidableRel mentionsGE := fun a b => Nat.decLe b.mentions a.mentions

instance : IsTotal EntityMention mentionsGE :=
  ⟨fun a b => Nat.le_total b.mentions a.mentions⟩

instance : IsTrans EntityMention mentionsGE :=
  ⟨fun _ _ _ hab hbc => Nat.le_trans hbc hab⟩

/-- Stable descending sort by `mentions`. -/
def sortByMentionsDesc (l : List EntityMention) : List EntityMention :=
  List.insertionSort mentionsGE l

/-- The comparator `(a, b) => a.number - b.number` for chapter buckets. -/
def numberLE (a b : ChapterGuess) : Prop := a.number ≤ b.number

instance : DecidableRel numberLE := fun a b => Nat.decLe a.number b.number

/-- Ascending sort of chapter buckets by `number`. -/
def sortByNumberAsc (l : List ChapterGuess) : List ChapterGuess :=
  List.insertionSort numberLE l

/-! ### Structure guess (`analyzeProject`, `analysis.ts` 229–252) -/

/-- The filter at lines 229–231: only `chapter-draft` and
`scene-fragment` files feed the structure guess. -/
def chapterFiles (files : List ClassifiedFile) : List ClassifiedFile :=
  files.filter (fun f =>
    f.classification == "chapter-draft" || f.classification == "scene-fragment")

/-- The bucket key `file.chapterGuess || 0`: a missing guess defaults
to bucket `0` (and a guess of `0` is already falsy, hence also `0`). -/
def chapKey (f : ClassifiedFile) : Nat := f.chapterGuess.getD 0

/-- One step of the chapter bucketing loop (`analysis.ts` 234–250): an
existing bucket gains the file name, its word count, and
`hasAlternateVersions = true`; a fresh bucket takes its `status` from
this first contributor's `isComplete` (truthy → `complete`, else
`partial`). -/
def chapStep (m : List (Nat × ChapterGuess)) (f : ClassifiedFile) :
    List (Nat × ChapterGuess) :=
  match m.lookup (chapKey f) with
  | some _ =>
    jsMapUpdate m (chapKey f) (fun e =>
      { e with
        files := e.files ++ [f.name]
        wordCount := e.wordCount + countWords f.content
        hasAlternateVersions := true })
  | none =>
    m ++ [(chapKey f,
      { number := chapKey f
        title := none
        files := [f.name]
        wordCount := countWords f.content
        status := if f.isComplete.getD false then "complete" else "partial"
        hasAlternateVersions := false })]

/-- The `chapterMap` of `analyzeProject` after the bucketing loop. -/
def chapterGuessMap (files : List ClassifiedFile) : List (Nat × ChapterGuess) :=
  (chapterFiles files).foldl chapStep []

/-! ### Consolidation pass (`analyzeProject`, `analysis.ts` 293–312) -/

/-- Outcome of the consolidation gateway interaction, at the
TypeScript-declared response types: the call threw, the content did not
parse as JSON (or parsed to `null`, whose first property access throws
inside the same `try`), or it parsed, with each response field either
present or absent/falsy (`none`). -/
inductive ConsOutcome where
  | thrown : ConsOutcome
  | unparseable : ConsOutcome
  | parsed : Option String → Option (List Dup) → Option (List Question) → ConsOutcome

/-- The result of the consolidation step: the three local variables
`genreGuess`, `possibleDuplicates`, `questions`. -/
structure ConsResult where
  genreGuess : String
  possibleDuplicates : List Dup
  questions : List Question
deriving DecidableEq

/-- `s || d` for strings (empty string is falsy). -/
def jsOrStrD (s : Option String) (d : String) : String :=
  match s with
  | none => d
  | some s => if s = "" then d else s

/-- The consolidation step: the variables are initialised to
`'Fiction'`, `[]`, `[]` (lines 293–295); the `try` block overwrites
them only when `generate` and `JSON.parse` both succeed; any throw is
caught (line 310) leaving all three defaults in place.  The embedding
is a total function: this step never throws. -/
def consolidate (gw : ConsOutcome) : ConsResult :=
  match gw with
  | .thrown => ⟨"Fiction", [], []⟩
  | .unparseable => ⟨"Fiction", [], []⟩
  | .parsed g d q => ⟨jsOrStrD g "Fiction", d.getD [], q.getD []⟩

/-- `analyzeProject` (`analysis.ts` 154–328): aggregate entities, sort
them, bucket chapter files, total the word counts, run the
consolidation pass, and assemble the `IngestionAnalysis`.
`estimatedCompletion = min(100, round(totalWords / 80000 * 100))` is
computed in exact arithmetic (`round(n / 800)` rounding half up). -/
def analyzeProject (files : List ClassifiedFile) (cons : ConsOutcome) :
    IngestionAnalysis :=
  let characters := sortByMentionsDesc ((characterMap files).map Prod.snd)
  let locations := sortByMentionsDesc ((locationMap files).map Prod.snd)
  let concepts := sortByMentionsDesc ((conceptMap files).map Prod.snd)
  let chapters := sortByNumberAsc ((chapterGuessMap files).map Prod.snd)
  let totalWords := (files.map (fun f => countWords f.content)).sum
  let res := consolidate cons
  { genre := res.genreGuess
    totalWords := totalWords
    files := files
    characters := characters
    locations := locations
    concepts := concepts
    possibleDuplicates := res.possibleDuplicates
    structureGuess :=
      { chapters := chapters
        estimatedCompletion := min 100 ((totalWords + 400) / 800) }
    questions := res.questions }

/-! ## Clarification dialogue controller (`IngestionView`) -/

/-- The `IngestionStep` union of the ingestion view. -/
inductive IngestionStep where
  | welcome : IngestionStep
  | dropping : IngestionStep
  | reading : IngestionStep
  | classifying : IngestionStep
  | analyzing : IngestionStep
  | summary : IngestionStep
  | characters : IngestionStep
  | structure : IngestionStep
  | questions : IngestionStep
  | confirm : IngestionStep
  | building : IngestionStep
  | complete : IngestionStep
deriving DecidableEq

/-- The step transition at the end of `presentSummary` (lines 288–298):
`setStep('questions')` when `analysis.questions.length > 0 ||
analysis.possibleDuplicates.length > 0`, else `setStep('confirm')`. -/
def presentSummaryStep (a : IngestionAnalysis) : IngestionStep :=
  if a.questions.length > 0 ∨ a.possibleDuplicates.length > 0 then
    IngestionStep.questions
  else IngestionStep.confirm

/-- The object spread `{ ...prev, [questionId]: answer }` on the answer
map: an existing key keeps its position with the new value; a new key
is appended. -/
def jsObjSet (m : List (String × String)) (k v : String) :
    List (String × String) :=
  if (m.lookup k).isSome then jsMapUpdate m k (fun _ => v) else m ++ [(k, v)]

/-- Truthiness of `answers[q.id]`: an absent key is `undefined` (falsy)
and a stored empty string is falsy. -/
def truthyAnswer (answers : List (String × String)) (id : String) : Bool :=
  match answers.lookup id with
  | none => false
  | some s => s != ""

/-- The `unansweredQuestions` computed inside `handleAnswer` (line 307):
`analysis.questions.filter(q => !answers[q.id] && q.id !== questionId)`,
over the *pre-update* answer map, excluding the id just answered. -/
def unansweredAfter (questions : List Question)
    (answers : List (String × String)) (questionId : String) : List Question :=
  questions.filter (fun q => !truthyAnswer answers q.id && q.id != questionId)

/-- `handleAnswer` (lines 302–321): store the answer, then either
present the first remaining question (its text is the next assistant
message) or move to the `confirm` step.  Returns the updated answer
map, the question presented next (if any), and the step transition
(if any). -/
def handleAnswer (questions : List Question)
    (answers : List (String × String)) (questionId answerText : String) :
    List (String × String) × Option Question × Option IngestionStep :=
  let answers' := jsObjSet answers questionId answerText
  match unansweredAfter questions answers questionId with
  | next :: _ => (answers', some next, none)
  | [] => (answers', none, some IngestionStep.confirm)

/-- `renderCurrentQuestion` (lines 435–441): the question rendered in
the `questions` step is the head of
`analysis.questions.filter(q => !answers[q.id])`. -/
def renderCurrentQuestion (questions : List Question)
    (answers : List (String × String)) : Option Question :=
  (questions.filter (fun q => !truthyAnswer answers q.id)).head?

/-! ## Project materializer (`buildProject`, `IngestionView` 324–432) -/

/-- A codex entry as written by `buildProject` (`type`, `name`,
`aliases`, `description`, `attributes`; ids, relationships and tags
are fresh constants and omitted). -/
structure CodexEntry where
  ctype : String
  name : String
  aliases : List String
  description : String
  attributes : List (String × String)
deriving DecidableEq

/-- The character codex entry (lines 349–365): `description` defaults
to `''`, `attributes` holds `role` (`|| 'unknown'`) and the decimal
string of `mentions`. -/
def charEntry (c : EntityMention) : CodexEntry :=
  { ctype := "character"
    name := c.name
    aliases := c.aliases
    description := c.description.getD ""
    attributes := [("role", jsOrStrD (some c.role) "unknown"),
                   ("mentions", toString c.mentions)] }

/-- The location codex entry (lines 369–382): no aliases, no
attributes. -/
def locEntry (l : EntityMention) : CodexEntry :=
  { ctype := "location"
    name := l.name
    aliases := []
    description := l.description.getD ""
    attributes := [] }

/-- The codex entries written by `buildProject`: one per character of
`analysis.characters.slice(0, 20)`, then one per location of
`analysis.locations.slice(0, 15)`. -/
def buildCodex (characters locations : List EntityMention) : List CodexEntry :=
  (characters.take 20).map charEntry ++ (locations.take 15).map locEntry

/-- A chapter record as written by `buildProject` (auto id and
`projectId` omitted; `scenes` starts empty). -/
structure ChapterRec where
  number : Nat
  title : String
deriving DecidableEq

/-- A scene record as written by `buildProject` (ids omitted; `number`
is the constant `1`). -/
structure SceneRec where
  goal : String
  status : String
  content : String
  wordCount : Nat
deriving DecidableEq

/-- The chapter/scene materialization for one `ChapterGuess`
(lines 386–413).  `number: chapter.number || 0` is the identity on a
`Nat` (0 is the only falsy value).  `title: chapter.title ||
`Chapter ${chapter.number || '?'}`` uses `'?'` in place of a falsy
number.  The scene is created for the first file of `classifiedFiles`
whose name the chapter's file list contains — at most one scene per
chapter — with the file's full text as content and a word count
recomputed from that content. -/
def materializeChapter (ch : ChapterGuess) (classifiedFiles : List ClassifiedFile) :
    ChapterRec × Option SceneRec :=
  let chapterEntry : ChapterRec :=
    { number := ch.number
      title := jsOrStrD ch.title
        ("Chapter " ++ (if ch.number = 0 then "?" else toString ch.number)) }
  match classifiedFiles.find? (fun f => ch.files.contains f.name) with
  | some chapterFile =>
    (chapterEntry, some
      { goal := jsOrStrD (some chapterFile.summary) "Imported scene"
        status := if ch.status == "complete" then "drafted" else "planned"
        content := chapterFile.content
        wordCount := countWords chapterFile.content })
  | none => (chapterEntry, none)

/-- The chapter loop of `buildProject` (line 386): one
`materializeChapter` per `ChapterGuess` of the structure guess. -/
def buildChapters (chapters : List ChapterGuess)
    (classifiedFiles : List ClassifiedFile) : List (ChapterRec × Option SceneRec) :=
  chapters.map (fun ch => materializeChapter ch classifiedFiles)

/-! ## Association-list lemmas -/

section AssocLemmas

variable {κ α : Type} [BEq κ] [LawfulBEq κ]

theorem lookup_jsMapUpdate_self (m : List (κ × α)) (k : κ) (f : α → α) :
    (jsMapUpdate m k f).lookup k = (m.lookup k).map f := by
  induction m with
  | nil => simp [jsMapUpdate]
  | cons p rest ih =>
    obtain ⟨k₁, v⟩ := p
    by_cases h : k₁ = k
    · subst h
      simp [jsMapUpdate, List.lookup]
    · have h' : (k == k₁) = false := by
        simp [Ne.symm h]
      simp [jsMapUpdate, List.lookup, h, h', ih]

theorem lookup_jsMapUpdate_ne (m : List (κ × α)) (k : κ) (f : α → α)
    (k' : κ) (h : ¬ k' = k) :
    (jsMapUpdate m k f).lookup k' = m.lookup k' := by
  induction m with
  | nil => simp [jsMapUpdate]
  | cons p rest ih =>
    obtain ⟨k₁, v⟩ := p
    by_cases h₁ : k₁ = k
    · subst h₁
      have h' : (k' == k₁) = false := by simp [h]
      simp [jsMapUpdate, List.lookup, h']
    · by_cases h₂ : k' = k₁
      · subst h₂
        simp [jsMapUpdate, List.lookup, h₁]
      · have h' : (k' == k₁) = false := by simp [h₂]
        simp [jsMapUpdate, List.lookup, h₁, h', ih]

theorem map_fst_jsMapUpdate (m : List (κ × α)) (k : κ) (f : α → α) :
    (jsMapUpdate m k f).map Prod.fst = m.map Prod.fst := by
  induction m with
  | nil => simp [jsMapUpdate]
  | cons p rest ih =>
    obtain ⟨k₁, v⟩ := p
    by_cases h : k₁ = k
    · subst h; simp [jsMapUpdate]
    · simp [jsMapUpdate, h, ih]

theorem lookup_cons_self (k : κ) (v : α) (l : List (κ × α)) :
    ((k, v) :: l).lookup k = some v := by
  simp [List.lookup]

theorem lookup_cons_ne {k k₁ : κ} (v : α) (l : List (κ × α))
    (h : ¬ k = k₁) : ((k₁, v) :: l).lookup k = l.lookup k := by
  have h' : (k == k₁) = false := by simp [h]
  simp [List.lookup, h']

theorem lookup_append_of_none {m : List (κ × α)} {k : κ}
    (m' : List (κ × α)) (h : m.lookup k = none) :
    (m ++ m').lookup k = m'.lookup k := by
  induction m with
  | nil => simp
  | cons p rest ih =>
    obtain ⟨k₁, v⟩ := p
    by_cases h₁ : k = k₁
    · subst h₁
      rw [lookup_cons_self] at h
      exact absurd h (by simp)
    · rw [lookup_cons_ne v rest h₁] at h
      rw [List.cons_append, lookup_cons_ne v (rest ++ m') h₁]
      exact ih h

theorem lookup_append_of_some {m : List (κ × α)} {k : κ} {v : α}
    (m' : List (κ × α)) (h : m.lookup k = some v) :
    (m ++ m').lookup k = some v := by
  induction m with
  | nil => simp [List.lookup] at h
  | cons p rest ih =>
    obtain ⟨k₁, w⟩ := p
    by_cases h₁ : k = k₁
    · subst h₁
      rw [lookup_cons_self] at h
      rw [List.cons_append, lookup_cons_self]
      exact h
    · rw [lookup_cons_ne w rest h₁] at h
      rw [List.cons_append, lookup_cons_ne w (rest ++ m') h₁]
      exact ih h

theorem lookup_eq_none_iff (m : List (κ × α)) (k : κ) :
    m.lookup k = none ↔ k ∉ m.map Prod.fst := by
  induction m with
  | nil => simp
  | cons p rest ih =>
    obtain ⟨k₁, v⟩ := p
    by_cases h₁ : k = k₁
    · subst h₁; simp [List.lookup]
    · have h' : (k == k₁) = false := by simp [h₁]
      simp [List.lookup, h', ih, h₁]

theorem lookup_singleton_self (k : κ) (v : α) :
    ([(k, v)] : List (κ × α)).lookup k = some v := by
  simp [List.lookup]

theorem lookup_singleton_ne {k k' : κ} (v : α) (h : ¬ k' = k) :
    ([(k, v)] : List (κ × α)).lookup k' = none := by
  have h' : (k' == k) = false := by simp [h]
  simp [List.lookup, h']

end AssocLemmas

/-- `head?` of an append whose left part is non-empty. -/
theorem head?_append_left {α : Type} {l : List α} (l' : List α) (h : l ≠ []) :
    (l ++ l').head? = l.head? := by
  cases l with
  | nil => exact absurd rfl h
  | cons a t => simp

/-! ## Correctness of the entity aggregation -/

/-- The occurrences of the normalized key `k` within an occurrence
list, in traversal order. -/
def occsWithKey (k : String) (occs : List (String × String)) :
    List (String × String) :=
  occs.filter (fun o => normKey o.2 == k)

/-- The aggregation specification: the map has one record per
normalized key; a key is present iff some occurrence carries it; for
the record of key `k`, `mentions` counts the occurrences with key `k`
one each, `name` is the (original-casing) entity string of the first
such occurrence, and `appearsIn` holds exactly the contributing file
names with no duplicates. -/
def AggOk (occs : List (String × String)) (m : List (String × EntityMention)) : Prop :=
  (m.map Prod.fst).Nodup ∧
  (∀ k : String, (m.lookup k).isSome ↔ occsWithKey k occs ≠ []) ∧
  (∀ k e, m.lookup k = some e →
    e.mentions = (occsWithKey k occs).length ∧
    (∃ fn, (occsWithKey k occs).head? = some (fn, e.name)) ∧
    e.appearsIn.Nodup ∧
    (∀ x, x ∈ e.appearsIn ↔ x ∈ (occsWithKey k occs).map Prod.fst))

theorem aggEntities_ok (occs : List (String × String)) :
    AggOk occs (aggEntities occs) := by
  induction occs using List.reverseRecOn with
  | nil =>
    refine ⟨by simp [aggEntities], ?_, ?_⟩
    · intro k; simp [aggEntities, occsWithKey, List.lookup]
    · intro k e h; simp [aggEntities, List.lookup] at h
  | append_singleton l o ih =>
    obtain ⟨fn, en⟩ := o
    obtain ⟨ihNodup, ihSome, ihDetail⟩ := ih
    have hfold : aggEntities (l ++ [(fn, en)]) = entStep (aggEntities l) (fn, en) := by
      simp [aggEntities, List.foldl_append]
    have hOwkEq : occsWithKey (normKey en) (l ++ [(fn, en)]) =
        occsWithKey (normKey en) l ++ [(fn, en)] := by
      simp [occsWithKey, List.filter_append]
    have hOwkNe : ∀ k, ¬ k = normKey en →
        occsWithKey k (l ++ [(fn, en)]) = occsWithKey k l := by
      intro k hk
      have : (normKey en == k) = false := by simp [Ne.symm hk]
      simp [occsWithKey, List.filter_append, this]
    rw [hfold]
    cases hlk : (aggEntities l).lookup (normKey en) with
    | some e₀ =>
      have hstep : entStep (aggEntities l) (fn, en) =
          jsMapUpdate (aggEntities l) (normKey en) (fun e =>
            { e with
              mentions := e.mentions + 1
              appearsIn :=
                if e.appearsIn.contains fn then e.appearsIn
                else e.appearsIn ++ [fn] }) := by
        simp [entStep, hlk]
      rw [hstep]
      have hOld := ihDetail (normKey en) e₀ hlk
      have hOwkNonempty : occsWithKey (normKey en) l ≠ [] :=
        (ihSome (normKey en)).mp (by simp [hlk])
      refine ⟨by rw [map_fst_jsMapUpdate]; exact ihNodup, ?_, ?_⟩
      · intro k
        by_cases hk : k = normKey en
        · subst hk
          rw [lookup_jsMapUpdate_self, hlk, hOwkEq]
          simp
        · rw [lookup_jsMapUpdate_ne _ _ _ _ hk, hOwkNe k hk]
          exact ihSome k
      · intro k e hlook
        by_cases hk : k = normKey en
        · subst hk
          rw [lookup_jsMapUpdate_self, hlk] at hlook
          simp only [Option.map_some'] at hlook
          obtain rfl := (Option.some.inj hlook).symm
          obtain ⟨hMent, ⟨fn₀, hHead⟩, hNodup, hMem⟩ := hOld
          refine ⟨?_, ⟨fn₀, ?_⟩, ?_, ?_⟩
          · rw [hOwkEq]; simp [hMent]
          · rw [hOwkEq, head?_append_left _ hOwkNonempty]
            simpa using hHead
          · by_cases hc : e₀.appearsIn.contains fn = true
            · rw [if_pos hc]
              exact hNodup
            · rw [if_neg hc]
              have hfn : fn ∉ e₀.appearsIn := by simpa using hc
              simp [List.nodup_append, hNodup, hfn]
          · intro x
            rw [hOwkEq]
            by_cases hc : e₀.appearsIn.contains fn = true
            · have hfn : fn ∈ e₀.appearsIn := by simpa using hc
              rw [if_pos hc]
              simp only [List.map_append, List.mem_append]
              constructor
              · intro hx; exact Or.inl ((hMem x).mp hx)
              · intro hx
                rcases hx with hx | hx
                · exact (hMem x).mpr hx
                · have hxfn : x = fn := by simpa using hx
                  rw [hxfn]; exact hfn
            · rw [if_neg hc]
              simp only [List.map_append, List.mem_append]
              constructor
              · intro hx
                rcases hx with hx | hx
                · exact Or.inl ((hMem x).mp hx)
                · right; simpa using hx
              · intro hx
                rcases hx with hx | hx
                · exact Or.inl ((hMem x).mpr hx)
                · have hxfn : x = fn := by simpa using hx
                  exact Or.inr (by simp [hxfn])
        · rw [lookup_jsMapUpdate_ne _ _ _ _ hk] at hlook
          rw [hOwkNe k hk]
          exact ihDetail k e hlook
    | none =>
      have hstep : entStep (aggEntities l) (fn, en) =
          aggEntities l ++ [(normKey en,
            { name := en
              aliases := []
              role := "unknown"
              description := none
              mentions := 1
              appearsIn := [fn] })] := by
        simp [entStep, hlk]
      rw [hstep]
      have hOwkEmpty : occsWithKey (normKey en) l = [] := by
        by_contra hne
        have := (ihSome (normKey en)).mpr hne
        rw [hlk] at this
        simp at this
      refine ⟨?_, ?_, ?_⟩
      · rw [List.map_append]
        simp only [List.map_cons, List.map_nil]
        rw [List.nodup_append]
        refine ⟨ihNodup, List.nodup_singleton _, ?_⟩
        intro a ha hb
        have hab : a = normKey en := by simpa using hb
        rw [hab] at ha
        exact (lookup_eq_none_iff _ _).mp hlk ha
      · intro k
        by_cases hk : k = normKey en
        · subst hk
          rw [lookup_append_of_none _ hlk, lookup_singleton_self, hOwkEq]
          simp
        · rw [hOwkNe k hk]
          cases hmk : (aggEntities l).lookup k with
          | some v =>
            rw [lookup_append_of_some _ hmk]
            have := (ihSome k).mp (by simp [hmk])
            simp [this]
          | none =>
            rw [lookup_append_of_none _ hmk, lookup_singleton_ne _ hk]
            have := ihSome k
            rw [hmk] at this
            simpa using this
      · intro k e hlook
        by_cases hk : k = normKey en
        · subst hk
          rw [lookup_append_of_none _ hlk, lookup_singleton_self] at hlook
          obtain rfl := (Option.some.inj hlook).symm
          rw [hOwkEq, hOwkEmpty]
          refine ⟨by simp, ⟨fn, by simp⟩, by simp, ?_⟩
          intro x; simp
        · rw [hOwkNe k hk]
          cases hmk : (aggEntities l).lookup k with
          | some v =>
            rw [lookup_append_of_some _ hmk] at hlook
            exact ihDetail k e (hmk.trans hlook)
          | none =>
            rw [lookup_append_of_none _ hmk, lookup_singleton_ne _ hk] at hlook
            exact absurd hlook (by simp)

/-! ## Correctness of the chapter bucketing -/

/-- The contributors to bucket `n`: the chapter files whose
(defaulted) chapter guess is `n`, in traversal order. -/
def contribs (n : Nat) (cf : List ClassifiedFile) : List ClassifiedFile :=
  cf.filter (fun f => chapKey f == n)

/-- The chapter-bucketing specification over an already-filtered list
of chapter files: one bucket per key; a bucket exists iff it has a
contributor; its `number` is the key, its `files` and `wordCount`
accumulate all contributors, its `status` is fixed by the first
contributor's `isComplete`, and `hasAlternateVersions` holds iff a
second contributor arrived. -/
def ChapOk (cf : List ClassifiedFile) (m : List (Nat × ChapterGuess)) : Prop :=
  (m.map Prod.fst).Nodup ∧
  (∀ n : Nat, (m.lookup n).isSome ↔ contribs n cf ≠ []) ∧
  (∀ n e, m.lookup n = some e →
    e.number = n ∧
    e.files = (contribs n cf).map ClassifiedFile.name ∧
    e.wordCount = ((contribs n cf).map (fun f => countWords f.content)).sum ∧
    (∃ f₀, (contribs n cf).head? = some f₀ ∧
      e.status = (if f₀.isComplete.getD false then "complete" else "partial")) ∧
    (e.hasAlternateVersions = true ↔ 2 ≤ (contribs n cf).length))

theorem chapFold_ok (cf : List ClassifiedFile) :
    ChapOk cf (cf.foldl chapStep []) := by
  induction cf using List.reverseRecOn with
  | nil =>
    refine ⟨by simp, ?_, ?_⟩
    · intro n; simp [contribs, List.lookup]
    · intro n e h; simp [List.lookup] at h
  | append_singleton l f ih =>
    obtain ⟨ihNodup, ihSome, ihDetail⟩ := ih
    have hfold : (l ++ [f]).foldl chapStep [] = chapStep (l.foldl chapStep []) f := by
      simp [List.foldl_append]
    have hCEq : contribs (chapKey f) (l ++ [f]) = contribs (chapKey f) l ++ [f] := by
      simp [contribs, List.filter_append]
    have hCNe : ∀ n, ¬ n = chapKey f → contribs n (l ++ [f]) = contribs n l := by
      intro n hn
      have : (chapKey f == n) = false := by simp [Ne.symm hn]
      simp [contribs, List.filter_append, this]
    rw [hfold]
    cases hlk : (l.foldl chapStep []).lookup (chapKey f) with
    | some e₀ =>
      have hstep : chapStep (l.foldl chapStep []) f =
          jsMapUpdate (l.foldl chapStep []) (chapKey f) (fun e =>
            { e with
              files := e.files ++ [f.name]
              wordCount := e.wordCount + countWords f.content
              hasAlternateVersions := true }) := by
        simp [chapStep, hlk]
      rw [hstep]
      have hOld := ihDetail (chapKey f) e₀ hlk
      have hNonempty : contribs (chapKey f) l ≠ [] :=
        (ihSome (chapKey f)).mp (by simp [hlk])
      refine ⟨by rw [map_fst_jsMapUpdate]; exact ihNodup, ?_, ?_⟩
      · intro n
        by_cases hn : n = chapKey f
        · subst hn
          rw [lookup_jsMapUpdate_self, hlk, hCEq]
          simp
        · rw [lookup_jsMapUpdate_ne _ _ _ _ hn, hCNe n hn]
          exact ihSome n
      · intro n e hlook
        by_cases hn : n = chapKey f
        · subst hn
          rw [lookup_jsMapUpdate_self, hlk] at hlook
          simp only [Option.map_some'] at hlook
          obtain rfl := (Option.some.inj hlook).symm
          obtain ⟨hNum, hFiles, hWc, ⟨f₀, hHead, hStatus⟩, _⟩ := hOld
          rw [hCEq]
          refine ⟨hNum, ?_, ?_, ⟨f₀, ?_, hStatus⟩, ?_⟩
          · simp [hFiles]
          · simp [hWc]
          · rw [head?_append_left _ hNonempty]
            exact hHead
          · have hlen : 1 ≤ (contribs (chapKey f) l).length := by
              cases hc : contribs (chapKey f) l with
              | nil => exact absurd hc hNonempty
              | cons a t => simp
            simp only [List.length_append, List.length_singleton]
            constructor
            · intro _; omega
            · intro _; trivial
        · rw [lookup_jsMapUpdate_ne _ _ _ _ hn] at hlook
          rw [hCNe n hn]
          exact ihDetail n e hlook
    | none =>
      have hstep : chapStep (l.foldl chapStep []) f =
          l.foldl chapStep [] ++ [(chapKey f,
            { number := chapKey f
              title := none
              files := [f.name]
              wordCount := countWords f.content
              status := if f.isComplete.getD false then "complete" else "partial"
              hasAlternateVersions := false })] := by
        simp [chapStep, hlk]
      rw [hstep]
      have hEmpty : contribs (chapKey f) l = [] := by
        by_contra hne
        have := (ihSome (chapKey f)).mpr hne
        rw [hlk] at this
        simp at this
      refine ⟨?_, ?_, ?_⟩
      · rw [List.map_append]
        simp only [List.map_cons, List.map_nil]
        rw [List.nodup_append]
        refine ⟨ihNodup, List.nodup_singleton _, ?_⟩
        intro a ha hb
        have hab : a = chapKey f := by simpa using hb
        rw [hab] at ha
        exact (lookup_eq_none_iff _ _).mp hlk ha
      · intro n
        by_cases hn : n = chapKey f
        · subst hn
          rw [lookup_append_of_none _ hlk, lookup_singleton_self, hCEq]
          simp
        · rw [hCNe n hn]
          cases hmk : (l.foldl chapStep []).lookup n with
          | some v =>
            rw [lookup_append_of_some _ hmk]
            have := (ihSome n).mp (by simp [hmk])
            simp [this]
          | none =>
            rw [lookup_append_of_none _ hmk, lookup_singleton_ne _ hn]
            have := ihSome n
            rw [hmk] at this
            simpa using this
      · intro n e hlook
        by_cases hn : n = chapKey f
        · subst hn
          rw [lookup_append_of_none _ hlk, lookup_singleton_self] at hlook
          obtain rfl := (Option.some.inj hlook).symm
          rw [hCEq, hEmpty]
          refine ⟨rfl, by simp, by simp, ⟨f, by simp, rfl⟩, by simp⟩
        · rw [hCNe n hn]
          cases hmk : (l.foldl chapStep []).lookup n with
          | some v =>
            rw [lookup_append_of_some _ hmk] at hlook
            exact ihDetail n e (hmk.trans hlook)
          | none =>
            rw [lookup_append_of_none _ hmk, lookup_singleton_ne _ hn] at hlook
            exact absurd hlook (by simp)

/-- The chapter bucket map of `analyzeProject` satisfies the bucketing
specification with respect to the filtered chapter files. -/
theorem chapterGuessMap_ok (files : List ClassifiedFile) :
    ChapOk (chapterFiles files) (chapterGuessMap files) :=
  chapFold_ok (chapterFiles files)

/-- Appending a file that is neither a `chapter-draft` nor a
`scene-fragment` leaves the chapter buckets unchanged. -/
theorem chapterGuessMap_append_nonchapter (files : List ClassifiedFile)
    (f : ClassifiedFile) (h₁ : ¬ f.classification = "chapter-draft")
    (h₂ : ¬ f.classification = "scene-fragment") :
    chapterGuessMap (files ++ [f]) = chapterGuessMap files := by
  unfold chapterGuessMap chapterFiles
  rw [List.filter_append]
  have : (files ++ [f]).filter (fun g =>
      g.classification == "chapter-draft" || g.classification == "scene-fragment") =
      files.filter (fun g =>
        g.classification == "chapter-draft" || g.classification == "scene-fragment") := by
    rw [List.filter_append]
    simp [h₁, h₂]
  simp [List.filter_append, h₁, h₂]

/-! ## Stability of the mention sort -/

/-- Inserting `x` with `orderedInsert` does not change the sublist of
entries with any fixed mention count, compared to putting `x` in
front: the entries `orderedInsert` passes over have strictly more
mentions than `x`. -/
theorem filter_orderedInsert_mentions (m : Nat) (x : EntityMention)
    (l : List EntityMention) :
    (List.orderedInsert mentionsGE x l).filter (fun e => e.mentions == m) =
      ((x :: l).filter (fun e => e.mentions == m)) := by
  induction l with
  | nil => rfl
  | cons y ys ih =>
    by_cases h : mentionsGE x y
    · rw [List.orderedInsert, if_pos h]
    · rw [List.orderedInsert, if_neg h]
      by_cases hx : x.mentions = m
      · have hy : ¬ y.mentions = m := by
          intro hy
          exact h (by unfold mentionsGE; omega)
        simp only [List.filter_cons, hx, hy]
        simp only [beq_iff_eq, hx, hy]
        simp [ih, List.filter_cons, hx]
      · simp only [List.filter_cons, beq_iff_eq, hx]
        simp only [if_false]
        rw [ih]
        simp [List.filter_cons, hx]

/-- The mention sort is stable: filtering the sorted list to any fixed
mention count yields the same sublist, in the same order, as filtering
the input. -/
theorem filter_sortByMentionsDesc (m : Nat) (l : List EntityMention) :
    (sortByMentionsDesc l).filter (fun e => e.mentions == m) =
      l.filter (fun e => e.mentions == m) := by
  induction l with
  | nil => rfl
  | cons x xs ih =>
    unfold sortByMentionsDesc at ih ⊢
    rw [List.insertionSort, filter_orderedInsert_mentions]
    simp only [List.filter_cons]
    rw [ih]

/-! ## `find?` helper -/

/-- `find?` returns the first match: if nothing in `pre` satisfies `p`
and `f` does, `find?` over `pre ++ f :: post` returns `f`. -/
theorem find?_first {α : Type} (p : α → Bool) :
    ∀ (pre : List α) (f : α) (post : List α),
      (∀ g ∈ pre, p g = false) → p f = true →
      (pre ++ f :: post).find? p = some f := by
  intro pre
  induction pre with
  | nil =>
    intro f post _ hf
    simp [List.find?_cons_of_pos _ hf]
  | cons g gs ih =>
    intro f post hpre hf
    rw [List.cons_append, List.find?_cons_of_neg _ (by simp [hpre g (by simp)])]
    exact ih f post (fun g' hg' => hpre g' (by simp [hg'])) hf

/-! ## Controller lemmas -/

theorem mem_of_lookup_eq_some {κ α : Type} [BEq κ] [LawfulBEq κ]
    {m : List (κ × α)} {k : κ} {v : α} (h : m.lookup k = some v) :
    (k, v) ∈ m := by
  induction m with
  | nil => simp [List.lookup] at h
  | cons p rest ih =>
    obtain ⟨k₁, w⟩ := p
    by_cases h₁ : k = k₁
    · subst h₁
      rw [lookup_cons_self] at h
      obtain rfl := Option.some.inj h
      simp
    · rw [lookup_cons_ne w rest h₁] at h
      simp [ih h]

theorem lookup_jsObjSet_self (m : List (String × String)) (k v : String) :
    (jsObjSet m k v).lookup k = some v := by
  unfold jsObjSet
  by_cases h : (m.lookup k).isSome
  · rw [if_pos h, lookup_jsMapUpdate_self]
    obtain ⟨w, hw⟩ := Option.isSome_iff_exists.mp h
    rw [hw]
    rfl
  · rw [if_neg h]
    have hn : m.lookup k = none := by
      cases hm : m.lookup k with
      | none => rfl
      | some w => rw [hm] at h; simp at h
    rw [lookup_append_of_none _ hn, lookup_singleton_self]

theorem lookup_jsObjSet_ne (m : List (String × String)) (k v id : String)
    (h : ¬ id = k) : (jsObjSet m k v).lookup id = m.lookup id := by
  unfold jsObjSet
  by_cases hs : (m.lookup k).isSome
  · rw [if_pos hs, lookup_jsMapUpdate_ne _ _ _ _ h]
  · rw [if_neg hs]
    cases hm : m.lookup id with
    | some w => exact lookup_append_of_some _ hm
    | none => rw [lookup_append_of_none _ hm, lookup_singleton_ne _ h]

theorem mem_jsMapUpdate_const {κ α : Type} [BEq κ]
    (m : List (κ × α)) (k : κ) (v : α) (p : κ × α) :
    p ∈ jsMapUpdate m k (fun _ => v) → p ∈ m ∨ p.2 = v := by
  induction m with
  | nil => intro h; simp [jsMapUpdate] at h
  | cons q rest ih =>
    obtain ⟨k₁, w⟩ := q
    intro h
    by_cases h₁ : (k₁ == k) = true
    · rw [jsMapUpdate, if_pos h₁] at h
      rcases List.mem_cons.mp h with h | h
      · right; rw [h]
      · left; exact List.mem_cons_of_mem _ h
    · rw [jsMapUpdate, if_neg h₁] at h
      rcases List.mem_cons.mp h with h | h
      · left; rw [h]; simp
      · rcases ih h with h | h
        · left; exact List.mem_cons_of_mem _ h
        · right; exact h

theorem mem_jsObjSet (m : List (String × String)) (k v : String)
    (p : String × String) : p ∈ jsObjSet m k v → p ∈ m ∨ p.2 = v := by
  unfold jsObjSet
  by_cases hs : (m.lookup k).isSome
  · rw [if_pos hs]
    exact mem_jsMapUpdate_const m k v p
  · rw [if_neg hs]
    intro h
    rcases List.mem_append.mp h with h | h
    · exact Or.inl h
    · right
      have : p = (k, v) := by simpa using h
      rw [this]

/-- The filter predicate of `handleAnswer` — "`answers[q.id]` is falsy
and `q.id` is not the id just answered" — coincides with "the id is
absent from the *updated* answer map", provided no stored answer is the
empty string. -/
theorem unanswered_pred (answers : List (String × String)) (qid ans : String)
    (hvals : ∀ p ∈ answers, p.2 ≠ "") (id : String) :
    (!truthyAnswer answers id && id != qid) =
      ((jsObjSet answers qid ans).lookup id).isNone := by
  by_cases hid : id = qid
  · subst hid
    rw [lookup_jsObjSet_self]
    simp
  · rw [lookup_jsObjSet_ne _ _ _ _ hid]
    cases hm : answers.lookup id with
    | none => simp [truthyAnswer, hm, hid]
    | some s =>
      have hs : s ≠ "" := hvals (id, s) (mem_of_lookup_eq_some hm)
      simp [truthyAnswer, hm, hs, hid]

/-- The filter predicate of `renderCurrentQuestion` coincides with
"the id is absent from the answer map", provided no stored answer is
the empty string. -/
theorem rendered_pred (answers : List (String × String))
    (hvals : ∀ p ∈ answers, p.2 ≠ "") (id : String) :
    (!truthyAnswer answers id) = (answers.lookup id).isNone := by
  cases hm : answers.lookup id with
  | none => simp [truthyAnswer, hm]
  | some s =>
    have hs : s ≠ "" := hvals (id, s) (mem_of_lookup_eq_some hm)
    simp [truthyAnswer, hm, hs]

/-- All values stored by `jsObjSet` are non-empty if the existing ones
and the new one are. -/
theorem jsObjSet_vals (answers : List (String × String)) (qid ans : String)
    (hvals : ∀ p ∈ answers, p.2 ≠ "") (hans : ans ≠ "") :
    ∀ p ∈ jsObjSet answers qid ans, p.2 ≠ "" := by
  intro p hp
  rcases mem_jsObjSet answers qid ans p hp with h | h
  · exact hvals p h
  · rw [h]; exact hans

/-! ## Sample data used by witnesses and counterexamples -/

/-- A concrete dropped file. -/
def sampleDropped : DroppedFile :=
  { name := "a.txt", path := "a.txt", ftype := "txt", size := 12,
    content := "Alice walked", lastModified := 0 }

/-- A concrete classified chapter file mentioning "Alice" twice. -/
def fileA : ClassifiedFile :=
  { name := "a.txt", content := "Alice walked", summary := "",
    classification := "chapter-draft",
    extractedEntities := { characters := ["Alice", "alice"], locations := [], concepts := [] },
    chapterGuess := some 2, isComplete := some true }

/-- A concrete classified scene fragment mentioning " Alice ". -/
def fileB : ClassifiedFile :=
  { name := "b.txt", content := "more words here", summary := "a scene",
    classification := "scene-fragment",
    extractedEntities := { characters := [" Alice "], locations := [], concepts := [] },
    chapterGuess := some 2, isComplete := some false }

/-- A parsed classification response whose `confidence` field is the
number `0`. -/
def zeroConfidenceResponse : JVal := JVal.obj [("confidence", JVal.num 0)]

/-- The record `classifyFile` builds from `zeroConfidenceResponse`. -/
def zeroConfidenceResult : ClassifiedFileJ :=
  { name := "a.txt", path := "a.txt", ftype := "txt", size := 12,
    content := "Alice walked", lastModified := 0,
    classification := JVal.str "unknown"
    confidence := JVal.num (1/2)
    summary := JVal.str "Could not summarize"
    characters := JVal.arr []
    locations := JVal.arr []
    concepts := JVal.arr []
    chapterGuess := JVal.undefined
    isComplete := JVal.undefined }

/-- A consolidation outcome carrying a duplicate group but no
questions. -/
def dupOnlyOutcome : ConsOutcome :=
  ConsOutcome.parsed none (some [{ items := ["Alice", "Alys"], reason := "similar names" }]) none

/-- A chapter bucket with unknown (falsy) chapter number. -/
def chapterGuess0 : ChapterGuess :=
  { number := 0, title := none, files := [], wordCount := 0,
    status := "partial", hasAlternateVersions := false }

/-- Three concrete clarifying questions. -/
def q1 : Question := { id := "q1", qtype := "canon", question := "Q1?", options := none }

/-- Second sample question. -/
def q2 : Question := { id := "q2", qtype := "canon", question := "Q2?", options := none }

/-- Third sample question. -/
def q3 : Question := { id := "q3", qtype := "canon", question := "Q3?", options := none }

/-! ## Claims -/

/-- C1 (counterexample): `classifyFile` is claimed never to throw, and
to return the degraded record on a gateway throw; but when the gateway
throws (`generate` is awaited outside the `try`), `classifyFile`
propagates the exception instead of returning the degraded record. -/
theorem classifyFile_throws_on_gateway_error :
    classifyFile sampleDropped GwOutcome.thrown = Except.error () ∧
    (Except.error () : Except Unit ClassifiedFileJ) ≠
      Except.ok (degradedRecord sampleDropped) :=
  ⟨rfl, by simp⟩

/-- C1 (amended): `classifyFile` itself degrades — without throwing —
only when the gateway's content is not parseable JSON; a gateway throw
propagates out of `classifyFile`, and the classification loop catches
it and substitutes the identical degraded record, so per-file
classification as a whole never aborts: on either failure the file
yields the record with classification `'unknown'`, confidence `0`,
summary `'Failed to analyze'`, empty `extractedEntities`, and the
original file fields intact. -/
theorem classify_degrade_ok (f : DroppedFile) (raw : String) :
    classifyFile f (GwOutcome.unparseable raw) = Except.ok (degradedRecord f) ∧
    classifyStep f GwOutcome.thrown = degradedRecord f ∧
    classifyStep f (GwOutcome.unparseable raw) = degradedRecord f ∧
    (degradedRecord f).classification = JVal.str "unknown" ∧
    (degradedRecord f).confidence = JVal.num 0 ∧
    (degradedRecord f).summary = JVal.str "Failed to analyze" ∧
    (degradedRecord f).characters = JVal.arr [] ∧
    (degradedRecord f).locations = JVal.arr [] ∧
    (degradedRecord f).concepts = JVal.arr [] ∧
    (degradedRecord f).name = f.name ∧
    (degradedRecord f).path = f.path ∧
    (degradedRecord f).ftype = f.ftype ∧
    (degradedRecord f).size = f.size ∧
    (degradedRecord f).content = f.content ∧
    (degradedRecord f).lastModified = f.lastModified :=
  ⟨rfl, rfl, rfl, rfl, rfl, rfl, rfl, rfl, rfl, rfl, rfl, rfl, rfl, rfl, rfl⟩

/-- C10 (counterexample): the content `"null"` parses as JSON (to the
value `null`), yet `classifyFile` does not apply the parse-success
defaults: the first property access on `null` throws inside the `try`,
so the parse-failure degrade record is returned — confidence `0`, not
`0.5`, and summary `'Failed to analyze'`, not `'Could not
summarize'`. -/
theorem classifyFile_null_counterexample :
    classifyFile sampleDropped (GwOutcome.parsed JVal.null) =
      Except.ok (degradedRecord sampleDropped) ∧
    (degradedRecord sampleDropped).confidence = JVal.num 0 ∧
    (degradedRecord sampleDropped).summary = JVal.str "Failed to analyze" ∧
    JVal.num 0 ≠ JVal.num (1/2) ∧
    JVal.str "Failed to analyze" ≠ JVal.str "Could not summarize" := by
  refine ⟨rfl, rfl, rfl, ?_, ?_⟩
  · intro h
    injection h with h'
    norm_num at h'
  · intro h
    injection h with h'
    simp at h'

/-- C10 (amended): for every gateway response whose content parses as
JSON *to a value other than `null`*, `classifyFile` fills each missing
or falsy field with its default — classification `'unknown'`, summary
`'Could not summarize'`, absent entity arrays empty — and confidence
becomes `0.5` whenever the parsed confidence is missing or `0`; the
returned confidence is never the number `0` on this path, so a
returned record has confidence `0` only on the degrade path (content
that fails to parse, or parses to `null`). -/
theorem classify_parsed_defaults (f : DroppedFile) (v : JVal)
    (r : ClassifiedFileJ) (hv : throwsOnAccess v = false)
    (hr : classifyFile f (GwOutcome.parsed v) = Except.ok r) :
    (jsFalsy (getF v "classification") = true →
      r.classification = JVal.str "unknown") ∧
    (jsFalsy (getF v "classification") = false →
      r.classification = getF v "classification") ∧
    (jsFalsy (getF v "summary") = true →
      r.summary = JVal.str "Could not summarize") ∧
    (getF v "characters" = JVal.undefined → r.characters = JVal.arr []) ∧
    (getF v "locations" = JVal.undefined → r.locations = JVal.arr []) ∧
    (getF v "concepts" = JVal.undefined → r.concepts = JVal.arr []) ∧
    ((getF v "confidence" = JVal.undefined ∨ getF v "confidence" = JVal.num 0) →
      r.confidence = JVal.num (1/2)) ∧
    r.confidence ≠ JVal.num 0 ∧
    (∀ gw r', classifyFile f gw = Except.ok r' → r'.confidence = JVal.num 0 →
      (∃ s, gw = GwOutcome.unparseable s) ∨
      (∃ w, gw = GwOutcome.parsed w ∧ throwsOnAccess w = true)) := by
  have hconf : ∀ w : JVal, throwsOnAccess w = false →
      jsOr (getF w "confidence") (JVal.num (1/2)) ≠ JVal.num 0 := by
    intro w _ h
    unfold jsOr at h
    by_cases hf : jsFalsy (getF w "confidence") = true
    · rw [if_pos hf] at h
      injection h with h'
      norm_num at h'
    · rw [if_neg hf] at h
      rw [h] at hf
      simp [jsFalsy] at hf
  have hrec : r = parsedRecord f v := by
    have hred : classifyFile f (GwOutcome.parsed v) =
        (if throwsOnAccess v = true then Except.ok (degradedRecord f)
         else Except.ok (parsedRecord f v)) := rfl
    rw [hred, if_neg (by simp [hv])] at hr
    injection hr with h
    exact h.symm
  subst hrec
  refine ⟨?_, ?_, ?_, ?_, ?_, ?_, ?_, hconf v hv, ?_⟩
  · intro h; simp [parsedRecord, jsOr, h]
  · intro h; simp [parsedRecord, jsOr, h]
  · intro h; simp [parsedRecord, jsOr, h]
  · intro h; simp [parsedRecord, jsOr, h, jsFalsy]
  · intro h; simp [parsedRecord, jsOr, h, jsFalsy]
  · intro h; simp [parsedRecord, jsOr, h, jsFalsy]
  · intro h
    rcases h with h | h <;> simp [parsedRecord, jsOr, h, jsFalsy]
  · intro gw r' hok hzero
    cases gw with
    | thrown => simp [classifyFile] at hok
    | unparseable s => exact Or.inl ⟨s, rfl⟩
    | parsed w =>
      by_cases hw : throwsOnAccess w = true
      · exact Or.inr ⟨w, rfl, hw⟩
      · exfalso
        have hw' : throwsOnAccess w = false := by
          cases hb : throwsOnAccess w
          · rfl
          · exact absurd hb hw
        have hred : classifyFile f (GwOutcome.parsed w) =
            (if throwsOnAccess w = true then Except.ok (degradedRecord f)
             else Except.ok (parsedRecord f w)) := rfl
        rw [hred, if_neg (by simp [hw'])] at hok
        injection hok with h
        rw [← h] at hzero
        exact hconf w hw' hzero

/-- C10 (witness): a parsed response whose `confidence` field is the
number `0` yields a record with confidence `0.5`. -/
theorem classify_parsed_defaults_witness :
    zeroConfidenceResult.confidence = JVal.num (1/2) :=
  (classify_parsed_defaults sampleDropped zeroConfidenceResponse
    zeroConfidenceResult rfl rfl).2.2.2.2.2.2.1 (Or.inr rfl)

/-- C2: aggregation identity for all three entity classes.  Two
entity strings merge into one record iff their normalized
(lower-cased, trimmed) keys are equal: the map holds exactly one
record per key occurring in the occurrence list (`Nodup` keys plus the
presence iff), the first occurrence of a key fixes the display name
with its original casing, `mentions` equals the number of occurrences
of the key (each occurrence increments it by exactly 1), and
`appearsIn` holds exactly the contributing file names with no
duplicates — even when one file mentions the same name twice. -/
theorem aggregation_identity (files : List ClassifiedFile) :
    AggOk (charOccs files) (characterMap files) ∧
    AggOk (locOccs files) (locationMap files) ∧
    AggOk (conceptOccs files) (conceptMap files) :=
  ⟨aggEntities_ok (charOccs files), aggEntities_ok (locOccs files),
    aggEntities_ok (conceptOccs files)⟩

/-- C2 (witness): `"Alice"`, `"alice"` in one file and `" Alice "` in
another merge into one record with 3 mentions. -/
theorem aggregation_identity_witness :
    ({ name := "Alice", aliases := [], role := "unknown", description := none,
       mentions := 3, appearsIn := ["a.txt", "b.txt"] } : EntityMention).mentions =
      (occsWithKey "alice" (charOccs [fileA, fileB])).length :=
  ((aggregation_identity [fileA, fileB]).1.2.2 "alice"
    { name := "Alice", aliases := [], role := "unknown", description := none,
      mentions := 3, appearsIn := ["a.txt", "b.txt"] } rfl).1

/-- C3 (counterexample): an analysis whose `questions` list is empty
but whose `possibleDuplicates` list is not — reachable from a parsed
consolidation response with duplicates and no questions — makes
`presentSummary` enter the `questions` step, not `confirm`. -/
theorem summary_questions_despite_no_questions :
    (analyzeProject [] dupOnlyOutcome).questions = [] ∧
    presentSummaryStep (analyzeProject [] dupOnlyOutcome) = IngestionStep.questions ∧
    IngestionStep.questions ≠ IngestionStep.confirm :=
  ⟨rfl, rfl, by decide⟩

/-- C3 (amended): the controller transitions from the summary directly
to the `confirm` (project-naming) step, never entering the questions
state, exactly when *both* the questions list and the
possible-duplicates list are empty; in particular, after a
consolidation soft-failure (which yields empty questions and empty
duplicates) it immediately reaches `confirm`. -/
theorem summary_to_confirm (a : IngestionAnalysis) (files : List ClassifiedFile) :
    (presentSummaryStep a = IngestionStep.confirm ↔
      (a.questions = [] ∧ a.possibleDuplicates = [])) ∧
    presentSummaryStep (analyzeProject files ConsOutcome.thrown) = IngestionStep.confirm ∧
    presentSummaryStep (analyzeProject files ConsOutcome.unparseable) = IngestionStep.confirm := by
  refine ⟨?_, ?_, ?_⟩
  · unfold presentSummaryStep
    by_cases h : a.questions.length > 0 ∨ a.possibleDuplicates.length > 0
    · rw [if_pos h]
      constructor
      · intro hc
        exact absurd hc (by decide)
      · rintro ⟨hq, hd⟩
        rw [hq, hd] at h
        simp at h
    · rw [if_neg h]
      constructor
      · intro _
        have h1 : ¬ a.questions.length > 0 := fun hq => h (Or.inl hq)
        have h2 : ¬ a.possibleDuplicates.length > 0 := fun hd => h (Or.inr hd)
        exact ⟨List.length_eq_zero.mp (by omega), List.length_eq_zero.mp (by omega)⟩
      · intro _
        rfl
  · simp [presentSummaryStep, analyzeProject, consolidate]
  · simp [presentSummaryStep, analyzeProject, consolidate]

/-- C3 (witness): after a consolidation soft-failure on two concrete
files, the controller reaches `confirm` (via the right-to-left
direction of the biconditional at the concrete analysis). -/
theorem summary_to_confirm_witness :
    presentSummaryStep (analyzeProject [fileA, fileB] ConsOutcome.thrown) =
      IngestionStep.confirm :=
  ((summary_to_confirm (analyzeProject [fileA, fileB] ConsOutcome.thrown)
    [fileA, fileB]).1).mpr ⟨rfl, rfl⟩

/-- C4: chapter bucketing.  Only `chapter-draft` and `scene-fragment`
files contribute (appending any other file leaves the buckets
unchanged); a missing `chapterGuess` defaults to bucket 0 (not dropped
and not erroring); each bucket's `wordCount` is the sum of its
contributors' word counts and its `files` lists them all; `status` is
fixed by the first contributor's `isComplete` flag and never
recomputed; `hasAlternateVersions` holds exactly when a second
contributor arrived. -/
theorem chapter_bucketing (files : List ClassifiedFile) :
    ChapOk (chapterFiles files) (chapterGuessMap files) ∧
    (∀ f : ClassifiedFile, f.chapterGuess = none → chapKey f = 0) ∧
    (∀ f : ClassifiedFile, ¬ f.classification = "chapter-draft" →
      ¬ f.classification = "scene-fragment" →
      chapterGuessMap (files ++ [f]) = chapterGuessMap files) :=
  ⟨chapterGuessMap_ok files,
    fun f h => by simp [chapKey, h],
    fun f h₁ h₂ => chapterGuessMap_append_nonchapter files f h₁ h₂⟩

/-- C4 (witness): two files in bucket 2 (first complete with 2 words,
second partial with 3) yield one bucket with `wordCount` the sum of
its contributors' word counts (and, by the same `rfl`-checked lookup,
status `complete` and `hasAlternateVersions`). -/
theorem chapter_bucketing_witness :
    ({ number := 2, title := none, files := ["a.txt", "b.txt"], wordCount := 5,
       status := "complete", hasAlternateVersions := true } : ChapterGuess).wordCount =
      ((contribs 2 (chapterFiles [fileA, fileB])).map
        (fun f => countWords f.content)).sum :=
  (((chapter_bucketing [fileA, fileB]).1.2.2 2
    { number := 2, title := none, files := ["a.txt", "b.txt"], wordCount := 5,
      status := "complete", hasAlternateVersions := true } rfl).2.2.1)

/-- C5: answer sequencing.  Recording an answer stores
`questionId → answerText` in the answer map (re-answering overwrites,
other entries are untouched); both the question presented by
`handleAnswer` and the one rendered afterwards are the first question,
in original list order, whose id is absent from the updated answer
map; and the controller moves to `confirm` exactly when every question
id is present in the updated map.  The hypotheses — no stored or
incoming answer is the empty string — are the call-site invariant: the
UI only records a non-empty option label or non-empty trimmed text. -/
theorem answer_sequencing (questions : List Question)
    (answers : List (String × String)) (qid ans : String)
    (hvals : ∀ p ∈ answers, p.2 ≠ "") (hans : ans ≠ "") :
    (jsObjSet answers qid ans).lookup qid = some ans ∧
    (∀ id, ¬ id = qid →
      (jsObjSet answers qid ans).lookup id = answers.lookup id) ∧
    (handleAnswer questions answers qid ans).1 = jsObjSet answers qid ans ∧
    (handleAnswer questions answers qid ans).2.1 =
      (questions.filter
        (fun q => ((jsObjSet answers qid ans).lookup q.id).isNone)).head? ∧
    renderCurrentQuestion questions (jsObjSet answers qid ans) =
      (questions.filter
        (fun q => ((jsObjSet answers qid ans).lookup q.id).isNone)).head? ∧
    ((handleAnswer questions answers qid ans).2.2 = some IngestionStep.confirm ↔
      ∀ q ∈ questions, ((jsObjSet answers qid ans).lookup q.id).isSome) := by
  have hu : unansweredAfter questions answers qid =
      questions.filter (fun q => ((jsObjSet answers qid ans).lookup q.id).isNone) := by
    unfold unansweredAfter
    exact List.filter_congr (fun q _ => unanswered_pred answers qid ans hvals q.id)
  have hrend : renderCurrentQuestion questions (jsObjSet answers qid ans) =
      (questions.filter
        (fun q => ((jsObjSet answers qid ans).lookup q.id).isNone)).head? := by
    unfold renderCurrentQuestion
    congr 1
    exact List.filter_congr (fun q _ =>
      rendered_pred (jsObjSet answers qid ans)
        (jsObjSet_vals answers qid ans hvals hans) q.id)
  refine ⟨lookup_jsObjSet_self answers qid ans,
    fun id h => lookup_jsObjSet_ne answers qid ans id h, ?_, ?_, hrend, ?_⟩
  · rcases hcase : unansweredAfter questions answers qid with _ | ⟨nq, rest⟩ <;>
      simp [handleAnswer, hcase]
  · rw [← hu]
    rcases hcase : unansweredAfter questions answers qid with _ | ⟨nq, rest⟩ <;>
      simp [handleAnswer, hcase]
  · rcases hcase : unansweredAfter questions answers qid with _ | ⟨nq, rest⟩
    · simp only [handleAnswer, hcase]
      constructor
      · intro _ q hq
        have hnil : questions.filter
            (fun q => ((jsObjSet answers qid ans).lookup q.id).isNone) = [] :=
          hu ▸ hcase
        have hq' := List.filter_eq_nil_iff.mp hnil q hq
        rcases hlk : (jsObjSet answers qid ans).lookup q.id with _ | v
        · rw [hlk] at hq'; simp at hq'
        · simp
      · intro _; trivial
    · simp only [handleAnswer, hcase]
      constructor
      · intro habs; simp at habs
      · intro hall
        exfalso
        have hmem : nq ∈ unansweredAfter questions answers qid := by
          rw [hcase]; simp
        rw [hu] at hmem
        have h2 := List.mem_filter.mp hmem
        rcases hlk : (jsObjSet answers qid ans).lookup nq.id with _ | v
        · have := hall nq h2.1
          rw [hlk] at this
          simp at this
        · have := h2.2
          rw [hlk] at this
          simp at this

/-- C5 (witness): with questions `[q1, q2, q3]` and an empty answer
map, answering `q2` first still presents `q1` next. -/
theorem answer_sequencing_witness :
    (handleAnswer [q1, q2, q3] [] "q2" "A").2.1 = some q1 :=
  ((answer_sequencing [q1, q2, q3] [] "q2" "A" (by simp) (by simp)).2.2.2.1).trans rfl

/-- C6: consolidation soft failure.  On a gateway throw or unparseable
content the consolidation step (a total function: it cannot throw)
yields genre `'Fiction'`, no duplicates and no questions, and the
assembled analysis carries exactly those neutral values, so ingestion
reaches project creation with zero required clarifications. -/
theorem consolidation_soft_failure (files : List ClassifiedFile) :
    consolidate ConsOutcome.thrown =
      { genreGuess := "Fiction", possibleDuplicates := [], questions := [] } ∧
    consolidate ConsOutcome.unparseable =
      { genreGuess := "Fiction", possibleDuplicates := [], questions := [] } ∧
    (analyzeProject files ConsOutcome.thrown).genre = "Fiction" ∧
    (analyzeProject files ConsOutcome.thrown).possibleDuplicates = [] ∧
    (analyzeProject files ConsOutcome.thrown).questions = [] ∧
    (analyzeProject files ConsOutcome.unparseable).genre = "Fiction" ∧
    (analyzeProject files ConsOutcome.unparseable).possibleDuplicates = [] ∧
    (analyzeProject files ConsOutcome.unparseable).questions = [] ∧
    presentSummaryStep (analyzeProject files ConsOutcome.thrown) =
      IngestionStep.confirm ∧
    presentSummaryStep (analyzeProject files ConsOutcome.unparseable) =
      IngestionStep.confirm := by
  refine ⟨rfl, rfl, rfl, rfl, rfl, rfl, rfl, rfl, ?_, ?_⟩ <;>
    simp [presentSummaryStep, analyzeProject, consolidate]

/-- C7 (counterexample): a `ChapterGuess` with falsy (0) number and no
title is materialized with title `"Chapter ?"` — neither the empty
string nor `"Chapter 0"`, contradicting the claim that the title is
empty when the number is falsy. -/
theorem chapter_title_counterexample :
    (materializeChapter chapterGuess0 []).1.title = "Chapter ?" ∧
    ("Chapter ?" : String) ≠ "" ∧
    ("Chapter ?" : String) ≠ "Chapter 0" :=
  ⟨rfl, by decide, by decide⟩

/-- C7 (amended): one `Chapter` record per `ChapterGuess`, numbered
from the guess, with title defaulted to `"Chapter {number}"` — with
`'?'` in place of the number (i.e. `"Chapter ?"`) when the number is
falsy; a scene exists iff some classified file matches the chapter's
file list, and then exactly one scene is created, carrying the *first*
matching file's full text as content, status `drafted` iff the
aggregate status was `complete` (else `planned`), and a word count
recomputed from the content. -/
theorem chapter_materialization (chs : List ChapterGuess) (ch : ChapterGuess)
    (cfs : List ClassifiedFile) :
    (buildChapters chs cfs).length = chs.length ∧
    (materializeChapter ch cfs).1.number = ch.number ∧
    (ch.title = none →
      (materializeChapter ch cfs).1.title =
        (if ch.number = 0 then "Chapter ?" else "Chapter " ++ toString ch.number)) ∧
    ((materializeChapter ch cfs).2.isSome ↔
      ∃ f ∈ cfs, ch.files.contains f.name) ∧
    (∀ sc, (materializeChapter ch cfs).2 = some sc →
      sc.wordCount = countWords sc.content ∧
      (sc.status = "drafted" ↔ ch.status = "complete") ∧
      (∃ f ∈ cfs, ch.files.contains f.name ∧ sc.content = f.content)) ∧
    (∀ pre f post, cfs = pre ++ f :: post →
      (∀ g ∈ pre, ch.files.contains g.name = false) →
      ch.files.contains f.name = true →
      ∃ sc, (materializeChapter ch cfs).2 = some sc ∧ sc.content = f.content) := by
  refine ⟨by simp [buildChapters], ?_, ?_, ?_, ?_, ?_⟩
  · unfold materializeChapter
    cases cfs.find? (fun f => ch.files.contains f.name) <;> rfl
  · intro h
    unfold materializeChapter
    cases cfs.find? (fun f => ch.files.contains f.name) <;>
      by_cases n0 : ch.number = 0 <;>
        simp [jsOrStrD, h, n0]
  · unfold materializeChapter
    cases hf : cfs.find? (fun f => ch.files.contains f.name) with
    | none =>
      rw [List.find?_eq_none] at hf
      simp only [Option.isSome_none]
      constructor
      · intro h; simp at h
      · rintro ⟨f, hmem, hpred⟩
        exact absurd hpred (by simpa using hf f hmem)
    | some f =>
      constructor
      · intro _
        have hp := List.find?_some hf
        exact ⟨f, List.mem_of_find?_eq_some hf, hp⟩
      · intro _; simp
  · intro sc hsc
    unfold materializeChapter at hsc
    revert hsc
    cases hf : cfs.find? (fun f => ch.files.contains f.name) with
    | none => intro hsc; simp at hsc
    | some f =>
      intro hsc
      obtain rfl := (Option.some.inj hsc).symm
      have hp := List.find?_some hf
      refine ⟨rfl, ?_, f, List.mem_of_find?_eq_some hf, hp, rfl⟩
      by_cases hstat : ch.status = "complete"
      · simp [hstat]
      · have hb : (ch.status == "complete") = false := by simp [hstat]
        simp only [hb, if_false]
        constructor
        · intro h; exact absurd h (by decide)
        · intro h; exact absurd h hstat
  · intro pre f post hcfs hpre hf
    rw [hcfs]
    have hfind : (pre ++ f :: post).find? (fun g => ch.files.contains g.name) = some f :=
      find?_first _ pre f post hpre hf
    refine ⟨{ goal := jsOrStrD (some f.summary) "Imported scene",
              status := if ch.status == "complete" then "drafted" else "planned",
              content := f.content, wordCount := countWords f.content }, ?_, rfl⟩
    unfold materializeChapter
    rw [hfind]

/-- C7 (witness): a complete chapter bucket matched by one file yields
a scene whose word count is recomputed from the file content. -/
theorem chapter_materialization_witness :
    ∃ sc, (materializeChapter
      { number := 2, title := none, files := ["a.txt"], wordCount := 800,
        status := "complete", hasAlternateVersions := true } [fileA]).2 = some sc ∧
      sc.content = fileA.content :=
  (chapter_materialization []
    { number := 2, title := none, files := ["a.txt"], wordCount := 800,
      status := "complete", hasAlternateVersions := true }
    [fileA]).2.2.2.2.2 [] fileA [] rfl (by simp) (by decide)

/-- C8: materialization caps.  Project creation writes exactly
`min 20 |characters|` codex entries of type `character` and exactly
`min 15 |locations|` of type `location`, taken from the top of the
(mention-ranked) lists in order. -/
theorem materialization_caps (a : IngestionAnalysis) :
    ((buildCodex a.characters a.locations).filter
      (fun e => e.ctype == "character")).length = min 20 a.characters.length ∧
    ((buildCodex a.characters a.locations).filter
      (fun e => e.ctype == "location")).length = min 15 a.locations.length ∧
    ((buildCodex a.characters a.locations).filter
      (fun e => e.ctype == "character")).map CodexEntry.name =
      (a.characters.take 20).map EntityMention.name ∧
    ((buildCodex a.characters a.locations).filter
      (fun e => e.ctype == "location")).map CodexEntry.name =
      (a.locations.take 15).map EntityMention.name := by
  have hcc : ∀ l : List EntityMention,
      (l.map charEntry).filter (fun e => e.ctype == "character") = l.map charEntry := by
    intro l
    induction l with
    | nil => rfl
    | cons c t ih => simp [charEntry, ih]
  have hcl : ∀ l : List EntityMention,
      (l.map charEntry).filter (fun e => e.ctype == "location") = [] := by
    intro l
    induction l with
    | nil => rfl
    | cons c t ih => simp [charEntry, ih]
  have hlc : ∀ l : List EntityMention,
      (l.map locEntry).filter (fun e => e.ctype == "character") = [] := by
    intro l
    induction l with
    | nil => rfl
    | cons c t ih => simp [locEntry, ih]
  have hll : ∀ l : List EntityMention,
      (l.map locEntry).filter (fun e => e.ctype == "location") = l.map locEntry := by
    intro l
    induction l with
    | nil => rfl
    | cons c t ih => simp [locEntry, ih]
  have hcn : ∀ l : List EntityMention,
      (l.map charEntry).map CodexEntry.name = l.map EntityMention.name := by
    intro l
    induction l with
    | nil => rfl
    | cons c t ih => simp [charEntry, ih]
  have hln : ∀ l : List EntityMention,
      (l.map locEntry).map CodexEntry.name = l.map EntityMention.name := by
    intro l
    induction l with
    | nil => rfl
    | cons c t ih => simp [locEntry, ih]
  unfold buildCodex
  rw [List.filter_append, List.filter_append, hcc, hcl, hlc, hll]
  refine ⟨?_, ?_, ?_, ?_⟩
  · simp [List.length_take]
  · simp [List.length_take]
  · rw [List.append_nil]
    exact hcn (a.characters.take 20)
  · rw [List.nil_append]
    exact hln (a.locations.take 15)

/-- C9: ranking order.  Each aggregated list (characters, locations,
concepts) is sorted descending by `mentions`, is a permutation of the
first-seen-ordered map values, and — stability — filtering to any
fixed mention count returns those entries in their first-seen order,
so ties keep first-seen order. -/
theorem ranking_order (files : List ClassifiedFile) (cons : ConsOutcome) :
    List.Sorted mentionsGE (analyzeProject files cons).characters ∧
    List.Perm (analyzeProject files cons).characters
      ((characterMap files).map Prod.snd) ∧
    (∀ m : Nat, (analyzeProject files cons).characters.filter
        (fun e => e.mentions == m) =
      ((characterMap files).map Prod.snd).filter (fun e => e.mentions == m)) ∧
    List.Sorted mentionsGE (analyzeProject files cons).locations ∧
    List.Perm (analyzeProject files cons).locations
      ((locationMap files).map Prod.snd) ∧
    (∀ m : Nat, (analyzeProject files cons).locations.filter
        (fun e => e.mentions == m) =
      ((locationMap files).map Prod.snd).filter (fun e => e.mentions == m)) ∧
    List.Sorted mentionsGE (analyzeProject files cons).concepts ∧
    List.Perm (analyzeProject files cons).concepts
      ((conceptMap files).map Prod.snd) ∧
    (∀ m : Nat, (analyzeProject files cons).concepts.filter
        (fun e => e.mentions == m) =
      ((conceptMap files).map Prod.snd).filter (fun e => e.mentions == m)) := by
  refine ⟨List.sorted_insertionSort mentionsGE _,
    List.perm_insertionSort mentionsGE _,
    fun m => filter_sortByMentionsDesc m _,
    List.sorted_insertionSort mentionsGE _,
    List.perm_insertionSort mentionsGE _,
    fun m => filter_sortByMentionsDesc m _,
    List.sorted_insertionSort mentionsGE _,
    List.perm_insertionSort mentionsGE _,
    fun m => filter_sortByMentionsDesc m _⟩

end Emerson










